import Mathlib

/-!
Shallow embedding of the MemoryManager stack allocator
(repository AhsanSarwar45/MemoryManager).

The repository contains two near-duplicate variants of the same allocator:

* `src/Source/Allocators/StackAllocator.hpp` — embedded below in namespace
  `Memarena`;
* `src/Source/StackAllocator/StackAllocator.hpp` — embedded below in
  namespace `MemarenaV2` (only the members whose code differs from the
  `Memarena` variant are duplicated there).

Machine integers are modelled as `Nat`.  `Offset` is `uint32` in the source
(the handle type in `src/Include/MemoryManager/StackAllocatorSafe.hpp` stores
offsets as `UInt32`); no run in this development approaches `2^32`, so
offsets are kept as plain `Nat`.

The arena's bytes are modelled as a byte-addressed memory `Nat → Nat`.
Headers and bound guards are written field by field using little-endian
encodings, mirroring the layout of the corresponding C++ structs, so that
re-reading a struct at a *wrong* address (which some deallocation paths do)
yields exactly the bytes that the C++ program would see.
-/

namespace MemoryManager

/-- Error taxonomy of the allocator (spec section 7).  Each `MEMARENA_ASSERT`
failure aborts the process; we model an abort as an `Except.error` carrying
the corresponding error, with no state mutation (the asserts all fire before
any state is written). -/
inductive AllocatorError where
  | outOfMemory
  | outOfOrderDeallocation
  | nullPointerDeallocation
  | notOwnedPointer
  | corruptionDetected
deriving DecidableEq, Repr

/-- The policy flags of `StackAllocatorPolicy`.  `Policies.hpp` is not in
`src/`; the set of independently toggleable flags is taken from the uses in
`src/Source/Allocators/StackAllocator.hpp` (`PolicyContains(policy, ...)`)
and from spec section 4.4.  `ThreadSafe` only wraps the critical section in
a lock and has no sequential effect, so it is not modelled. -/
structure StackAllocatorPolicy where
  sizeCheck : Bool
  boundsCheck : Bool
  stackCheck : Bool
  nullCheck : Bool
  ownershipCheck : Bool
deriving DecidableEq, Repr

/-- Modelled from the spec: `Policies.hpp` is not in `src/`; per spec
section 4.4, "Default configuration: all safety checks on, ThreadSafe
off". -/
def StackAllocatorPolicy.Default : StackAllocatorPolicy :=
  ⟨true, true, true, true, true⟩

/-- Byte-addressed memory. -/
def Memory : Type := Nat → Nat

/-- The state of a `StackAllocator`: `m_TotalSize` and the usage counter live
in the `Internal::Allocator` / `StackAllocatorBase` base (not in `src/`; the
fields are visible through `GetTotalSize`, `GetUsedSize` and `SetUsedSize`
calls), `m_StartAddress` and `m_CurrentOffset` are fields of the allocator
itself.  `usedSize` models the value reported by `GetUsedSize`. -/
structure AllocatorState where
  totalSize : Nat
  startAddress : Nat
  currentOffset : Nat
  usedSize : Nat
  memory : Memory

/-- A freshly constructed allocator: `m_CurrentOffset = 0`, used size 0
(the repository's test `Initialize` expects `GetUsedSize() == 0`), and a
fresh backing buffer (bytes modelled as 0). -/
def freshState (totalSize startAddress : Nat) : AllocatorState :=
  ⟨totalSize, startAddress, 0, 0, fun _ => 0⟩

/-- `Internal::StackHeader { Offset startOffset; Offset endOffset; }`. -/
structure StackHeader where
  startOffset : Nat
  endOffset : Nat
deriving DecidableEq, Repr

/-- `Internal::StackArrayHeader { Offset startOffset; Offset count; }`. -/
structure StackArrayHeader where
  startOffset : Nat
  count : Nat
deriving DecidableEq, Repr

/-! ### Byte-level memory operations -/

/-- Store a list of bytes at consecutive addresses. -/
def storeBytes : Memory → Nat → List Nat → Memory
  | m, _, [] => m
  | m, a, b :: bs => storeBytes (fun x => if x = a then b else m x) (a + 1) bs

/-- Load `n` bytes starting at address `a`. -/
def loadBytes (m : Memory) : Nat → Nat → List Nat
  | _, 0 => []
  | a, n + 1 => m a :: loadBytes m (a + 1) n

/-- Little-endian encoding of `n` into `w` bytes.  The last byte keeps the
whole remaining value: all values stored in this development fit their
fields, so this coincides with the machine encoding while keeping the
round trip exact. -/
def toLE : Nat → Nat → List Nat
  | 0, _ => []
  | 1, n => [n]
  | w + 2, n => n % 256 :: toLE (w + 1) (n / 256)

/-- Little-endian decoding. -/
def fromLE : List Nat → Nat
  | [] => 0
  | b :: bs => b + 256 * fromLE bs

/-- Store a 4-byte (`Offset`, i.e. `uint32`) field. -/
def store32 (m : Memory) (a v : Nat) : Memory := storeBytes m a (toLE 4 v)

/-- Store an 8-byte (`Size`, i.e. 64-bit `size_t`) field. -/
def store64 (m : Memory) (a v : Nat) : Memory := storeBytes m a (toLE 8 v)

/-- Load a 4-byte field. -/
def load32 (m : Memory) (a : Nat) : Nat := fromLE (loadBytes m a 4)

/-- Load an 8-byte field. -/
def load64 (m : Memory) (a : Nat) : Nat := fromLE (loadBytes m a 8)

/-! ### Struct sizes and layouts

`BoundsCheckPolicy.hpp` and `TypeAliases.hpp` are not in `src/`.
Modelled from the spec (section 3): the front guard stores
`{rollbackOffset, allocationSize}` and the back guard `{rollbackOffset}`,
with `Offset` 4 bytes wide (`UInt32`, as in the handle type in `src/`) and
`Size` 8 bytes wide (`size_t` on a 64-bit target).  `BoundGuardFront` is
then `{uint32 offset; uint64 allocationSize}`: `offset` at byte 0,
`allocationSize` at byte 8 after alignment padding, `sizeof == 16`;
`BoundGuardBack` is `{uint32 offset}`, `sizeof == 4`. -/

def sizeofBoundGuardFront : Nat := 16

def sizeofBoundGuardBack : Nat := 4

/-- `sizeof(InplaceHeader)`: with `StackCheck` the header derives from
`SafeHeaderBase {Offset endOffset}` and adds `Offset startOffset`
(8 bytes, `endOffset` first); without it the base is empty and only
`startOffset` remains (4 bytes). -/
def sizeofInplaceHeader (p : StackAllocatorPolicy) : Nat :=
  if p.stackCheck then 8 else 4

/-- `sizeof(InplaceArrayHeader) = sizeof(StackArrayHeader)`:
`{Offset startOffset; Offset count}`, 8 bytes. -/
def sizeofInplaceArrayHeader : Nat := 8

/-- Placement-construct `BoundGuardFront(offset, allocationSize)` at `a`. -/
def writeFrontGuard (m : Memory) (a offset allocationSize : Nat) : Memory :=
  store64 (store32 m a offset) (a + 8) allocationSize

/-- Placement-construct `BoundGuardBack(offset)` at `a`. -/
def writeBackGuard (m : Memory) (a offset : Nat) : Memory :=
  store32 m a offset

/-- Read the `offset` field of a `BoundGuardFront` at `a`. -/
def readFrontGuardOffset (m : Memory) (a : Nat) : Nat := load32 m a

/-- Read the `allocationSize` field of a `BoundGuardFront` at `a`. -/
def readFrontGuardSize (m : Memory) (a : Nat) : Nat := load64 m (a + 8)

/-- Read the `offset` field of a `BoundGuardBack` at `a`. -/
def readBackGuardOffset (m : Memory) (a : Nat) : Nat := load32 m a

/-- Placement-construct `InplaceHeader(startOffset, endOffset)` at `a`
(the constructor forwards `endOffset` to the header base, which stores it
only under `StackCheck`). -/
def writeInplaceHeader (p : StackAllocatorPolicy) (m : Memory)
    (a startOffset endOffset : Nat) : Memory :=
  if p.stackCheck then store32 (store32 m a endOffset) (a + 4) startOffset
  else store32 m a startOffset

/-- Re-read an `InplaceHeader` from `a`.  Without `StackCheck` the header
has no `endOffset` field; the returned `endOffset` is a dummy 0 (never
consulted, since the stack check is compiled out). -/
def readInplaceHeader (p : StackAllocatorPolicy) (m : Memory) (a : Nat) :
    StackHeader :=
  if p.stackCheck then ⟨load32 m (a + 4), load32 m a⟩
  else ⟨load32 m a, 0⟩

/-- Placement-construct `StackArrayHeader(startOffset, count)` at `a`. -/
def writeArrayHeader (m : Memory) (a startOffset count : Nat) : Memory :=
  store32 (store32 m a startOffset) (a + 4) count

/-- Re-read a `StackArrayHeader` from `a`. -/
def readArrayHeader (m : Memory) (a : Nat) : StackArrayHeader :=
  ⟨load32 m a, load32 m (a + 4)⟩

/-! ### Alignment math

Modelled from the spec: `Source/Utility/Alignment.hpp` is not in `src/`.
Spec section 4.1: `AlignUp(base, alignment)` is the smallest address
`≥ base` that is a multiple of `alignment`; `PaddingWithHeader(base,
alignment, headerSize)` lets `aligned = AlignUp(base + headerSize,
alignment)` and returns `aligned − base`. -/

def CalculateAlignedAddress (baseAddress alignment : Nat) : Nat :=
  ((baseAddress + alignment - 1) / alignment) * alignment

def CalculateAlignedPaddingWithHeader (baseAddress alignment headerSize : Nat) :
    Nat :=
  CalculateAlignedAddress (baseAddress + headerSize) alignment - baseAddress

/-- `SetCurrentOffset(offset)`: writes `m_CurrentOffset` and forwards the
same value to `SetUsedSize` (`src/Source/Allocators/StackAllocator.hpp`
lines 380-384; `SetUsedSize` lives in the base class, not in `src/`, and is
modelled from the spec as updating the value `GetUsedSize` reports). -/
def SetCurrentOffset (s : AllocatorState) (offset : Nat) : AllocatorState :=
  { s with currentOffset := offset, usedSize := offset }

/-- `GetUsedSize()` (read-only introspection). -/
def GetUsedSize (s : AllocatorState) : Nat := s.usedSize

/-- `Reset()` (`src/Source/Allocators/StackAllocator.hpp` line 265). -/
def Reset (s : AllocatorState) : AllocatorState := SetCurrentOffset s 0

/-- `OwnsAddress(address)` (`src/Source/Allocators/StackAllocator.hpp` line
386): `address >= m_StartAddress && address <= m_EndAddress`, with
`m_EndAddress = m_StartAddress + totalSize` (constructor, line 130). -/
def OwnsAddress (s : AllocatorState) (address : Nat) : Prop :=
  s.startAddress ≤ address ∧ address ≤ s.startAddress + s.totalSize

instance (s : AllocatorState) (a : Nat) : Decidable (OwnsAddress s a) :=
  inferInstanceAs (Decidable (_ ∧ _))

/-- `GetAddressFromPtr(ptr)` (`src/Source/Allocators/StackAllocator.hpp`
lines 349-365): `NullCheck` asserts the pointer is non-null, then
`OwnershipCheck` asserts `OwnsAddress`.  A null pointer is modelled as
address 0. -/
def GetAddressFromPtr (p : StackAllocatorPolicy) (s : AllocatorState)
    (ptr : Nat) : Except AllocatorError Nat :=
  if p.nullCheck = true ∧ ptr = 0 then .error .nullPointerDeallocation
  else if p.ownershipCheck = true ∧ ¬OwnsAddress s ptr then
    .error .notOwnedPointer
  else .ok ptr

/-- The result triple of `AllocateInternal`: the payload address together
with the start and end offsets of the allocation. -/
structure AllocResult where
  address : Nat
  startOffset : Nat
  endOffset : Nat
deriving DecidableEq, Repr

/-- `StackPtr<T>`: payload pointer plus `StackHeader` (offset metadata). -/
structure StackPtrHandle where
  address : Nat
  header : StackHeader
deriving DecidableEq, Repr

/-- `StackArrayPtr<T>`: payload pointer plus `StackArrayHeader`. -/
structure StackArrayPtrHandle where
  address : Nat
  header : StackArrayHeader
deriving DecidableEq, Repr

namespace Memarena

/-- `GetTotalHeaderSize<headerSize>()` (`src/Source/Allocators/
StackAllocator.hpp` lines 367-378): under `BoundsCheck` the front guard is
carved out of the padding together with the header. -/
def GetTotalHeaderSize (p : StackAllocatorPolicy) (headerSize : Nat) : Nat :=
  if p.boundsCheck then headerSize + sizeofBoundGuardFront else headerSize

/-- `AllocateInternal<headerSize>(size, alignment)`
(`src/Source/Allocators/StackAllocator.hpp` lines 268-318).  Computes the
padding (reserving room for header and front guard), applies `SizeCheck`
(`MEMARENA_ASSERT`, modelled as an `OutOfMemory` error with no state
change), writes the bound guards, adds `sizeof(BoundGuardBack)` to the new
offset under `BoundsCheck`, and commits through `SetCurrentOffset`. -/
def AllocateInternal (p : StackAllocatorPolicy) (headerSize : Nat)
    (s : AllocatorState) (size alignment : Nat) :
    Except AllocatorError (AllocatorState × AllocResult) :=
  let startOffset := s.currentOffset
  let baseAddress := s.startAddress + s.currentOffset
  let totalHeaderSize := GetTotalHeaderSize p headerSize
  let padding :=
    if 0 < totalHeaderSize then
      CalculateAlignedPaddingWithHeader baseAddress alignment totalHeaderSize
    else CalculateAlignedAddress baseAddress alignment - baseAddress
  let alignedAddress := baseAddress + padding
  let totalSizeAfterAllocation := s.currentOffset + padding + size
  if p.sizeCheck = true ∧ s.totalSize < totalSizeAfterAllocation then
    .error .outOfMemory
  else
    let totalAfter2 :=
      if p.boundsCheck then totalSizeAfterAllocation + sizeofBoundGuardBack
      else totalSizeAfterAllocation
    let mem2 :=
      if p.boundsCheck then
        writeBackGuard
          (writeFrontGuard s.memory (alignedAddress - totalHeaderSize)
            s.currentOffset size)
          (alignedAddress + size) s.currentOffset
      else s.memory
    let s2 := SetCurrentOffset { s with memory := mem2 } totalAfter2
    .ok (s2, ⟨alignedAddress, startOffset, totalAfter2⟩)

/-- `Allocate(size, alignment)` (lines 195-200): `AllocateInternal` with
`headerSize = sizeof(InplaceHeader)` followed by
`Internal::AllocateHeader<InplaceHeader>(voidPtr, startOffset, endOffset)`,
which placement-constructs the header at `voidPtr - sizeof(InplaceHeader)`
(`AllocatorUtils.hpp` is not in `src/`; the write address is modelled from
spec section 4.2: `WriteHeader<H>` constructs `H` at `address −
sizeof(H)`). -/
def Allocate (p : StackAllocatorPolicy) (s : AllocatorState)
    (size alignment : Nat) :
    Except AllocatorError (AllocatorState × AllocResult) :=
  match AllocateInternal p (sizeofInplaceHeader p) s size alignment with
  | .error e => .error e
  | .ok (s1, r) =>
    .ok ({ s1 with
           memory := writeInplaceHeader p s1.memory
             (r.address - sizeofInplaceHeader p) r.startOffset r.endOffset },
         r)

/-- `New<Object>(...)` (lines 136-142): `AllocateInternal<0>` and a handle
carrying `{startOffset, endOffset}`.  The object's constructor writes only
payload bytes and is not modelled. -/
def New (p : StackAllocatorPolicy) (s : AllocatorState) (size alignment : Nat) :
    Except AllocatorError (AllocatorState × StackPtrHandle) :=
  match AllocateInternal p 0 s size alignment with
  | .error e => .error e
  | .ok (s1, r) => .ok (s1, ⟨r.address, ⟨r.startOffset, r.endOffset⟩⟩)

/-- `NewArray<Object>(objectCount, ...)` (lines 166-172):
`AllocateInternal<0>` of `objectCount * sizeof(Object)` and a handle
carrying `{startOffset, count}`. -/
def NewArray (p : StackAllocatorPolicy) (s : AllocatorState)
    (objectCount objectSize alignment : Nat) :
    Except AllocatorError (AllocatorState × StackArrayPtrHandle) :=
  match AllocateInternal p 0 s (objectCount * objectSize) alignment with
  | .error e => .error e
  | .ok (s1, r) => .ok (s1, ⟨r.address, ⟨r.startOffset, objectCount⟩⟩)

/-- `AllocateArray(objectCount, objectSize, alignment)` (lines 223-229):
`AllocateInternal<sizeof(InplaceArrayHeader)>` followed by an in-place
`StackArrayHeader{startOffset, objectCount}`. -/
def AllocateArray (p : StackAllocatorPolicy) (s : AllocatorState)
    (objectCount objectSize alignment : Nat) :
    Except AllocatorError (AllocatorState × AllocResult) :=
  match
    AllocateInternal p sizeofInplaceArrayHeader s (objectCount * objectSize)
      alignment
  with
  | .error e => .error e
  | .ok (s1, r) =>
    .ok ({ s1 with
           memory := writeArrayHeader s1.memory
             (r.address - sizeofInplaceArrayHeader) r.startOffset
             objectCount },
         r)

/-- `DeallocateInternal(address, addressMarker, header)` (lines 320-347):
`StackCheck` compares the header's `endOffset` with `m_CurrentOffset`;
under `BoundsCheck` the front guard is re-read at `addressMarker -
sizeof(BoundGuardFront)` and the back guard at `address +
frontGuard->allocationSize`, both compared with the rollback offset;
finally the offset is rolled back to `header.startOffset`. -/
def DeallocateInternal (p : StackAllocatorPolicy) (s : AllocatorState)
    (address addressMarker : Nat) (header : StackHeader) :
    Except AllocatorError AllocatorState :=
  if p.stackCheck = true ∧ header.endOffset ≠ s.currentOffset then
    .error .outOfOrderDeallocation
  else if p.boundsCheck = true ∧
      ¬(readFrontGuardOffset s.memory
          (addressMarker - sizeofBoundGuardFront) = header.startOffset ∧
        readBackGuardOffset s.memory
          (address + readFrontGuardSize s.memory
            (addressMarker - sizeofBoundGuardFront)) = header.startOffset) then
    .error .corruptionDetected
  else .ok (SetCurrentOffset s header.startOffset)

/-- `Deallocate(void* ptr)` (lines 208-214): re-reads the `InplaceHeader`
from the bytes preceding the pointer; `GetHeaderFromPtr` moves the address
marker down to the header address. -/
def DeallocatePtr (p : StackAllocatorPolicy) (s : AllocatorState)
    (ptr : Nat) : Except AllocatorError AllocatorState :=
  match GetAddressFromPtr p s ptr with
  | .error e => .error e
  | .ok currentAddress =>
    let addressMarker := currentAddress - sizeofInplaceHeader p
    let header := readInplaceHeader p s.memory addressMarker
    DeallocateInternal p s currentAddress addressMarker header

/-- `Deallocate(const StackPtr<void>&)` (lines 216-221): consumes the
handle's embedded header; the address marker stays at the payload
address. -/
def DeallocateHandle (p : StackAllocatorPolicy) (s : AllocatorState)
    (ptr : Nat) (header : StackHeader) :
    Except AllocatorError AllocatorState :=
  match GetAddressFromPtr p s ptr with
  | .error e => .error e
  | .ok currentAddress =>
    DeallocateInternal p s currentAddress currentAddress header

/-- `Internal::GetArrayEndOffset(ptrAddress, startAddress, count,
objectSize)`: not in `src/` for this variant; the second variant's
`GetEndOffset` (`src/Source/StackAllocator/StackAllocator.hpp` lines
396-400) computes `(ptrAddress - m_StartAddress) + objectCount *
objectSize`, matching spec section 4.2 ("recompute the end offset as
`payloadOffset + count × elementSize`"). -/
def GetArrayEndOffset (ptrAddress startAddress objectCount objectSize : Nat) :
    Nat :=
  (ptrAddress - startAddress) + objectCount * objectSize

/-- `DeallocateArray(void* ptr, objectSize)` (lines 237-246): re-reads the
`StackArrayHeader`, recomputes the end offset from the count, and returns
the count. -/
def DeallocateArrayPtr (p : StackAllocatorPolicy) (s : AllocatorState)
    (ptr objectSize : Nat) :
    Except AllocatorError (AllocatorState × Nat) :=
  match GetAddressFromPtr p s ptr with
  | .error e => .error e
  | .ok currentAddress =>
    let addressMarker := currentAddress - sizeofInplaceArrayHeader
    let header := readArrayHeader s.memory addressMarker
    match
      DeallocateInternal p s currentAddress addressMarker
        ⟨header.startOffset,
         GetArrayEndOffset currentAddress s.startAddress header.count
           objectSize⟩
    with
    | .error e => .error e
    | .ok s1 => .ok (s1, header.count)

/-- `DeallocateArray(const StackArrayPtr<void>&, objectSize)` (lines
248-256). -/
def DeallocateArrayHandle (p : StackAllocatorPolicy) (s : AllocatorState)
    (ptr : Nat) (header : StackArrayHeader) (objectSize : Nat) :
    Except AllocatorError (AllocatorState × Nat) :=
  match GetAddressFromPtr p s ptr with
  | .error e => .error e
  | .ok currentAddress =>
    match
      DeallocateInternal p s currentAddress currentAddress
        ⟨header.startOffset,
         GetArrayEndOffset currentAddress s.startAddress header.count
           objectSize⟩
    with
    | .error e => .error e
    | .ok s1 => .ok (s1, header.count)

end Memarena

namespace MemarenaV2

/-- `GetTotalHeaderSize<headerSize, allocatorPolicy>()`
(`src/Source/StackAllocator/StackAllocator.hpp` lines 67-78): same formula
as the other variant (`boundsCheckPolicy == BoundsCheckPolicy::Basic`
modelled as the `boundsCheck` flag). -/
def GetTotalHeaderSize (p : StackAllocatorPolicy) (headerSize : Nat) : Nat :=
  if p.boundsCheck then headerSize + sizeofBoundGuardFront else headerSize

/-- `AllocateInternal<headerSize>(size, alignment)`
(`src/Source/StackAllocator/StackAllocator.hpp` lines 295-338).  Unlike the
other variant, this one does NOT add `sizeof(BoundGuardBack)` to
`totalSizeAfterAllocation`: the committed offset is `m_CurrentOffset +
padding + size` even under `BoundsCheck` (the back guard is still written
at `alignedAddress + size`). -/
def AllocateInternal (p : StackAllocatorPolicy) (headerSize : Nat)
    (s : AllocatorState) (size alignment : Nat) :
    Except AllocatorError (AllocatorState × Nat) :=
  let baseAddress := s.startAddress + s.currentOffset
  let totalHeaderSize := GetTotalHeaderSize p headerSize
  let padding :=
    if 0 < totalHeaderSize then
      CalculateAlignedPaddingWithHeader baseAddress alignment totalHeaderSize
    else CalculateAlignedAddress baseAddress alignment - baseAddress
  let alignedAddress := baseAddress + padding
  let totalSizeAfterAllocation := s.currentOffset + padding + size
  if p.sizeCheck = true ∧ s.totalSize < totalSizeAfterAllocation then
    .error .outOfMemory
  else
    let mem2 :=
      if p.boundsCheck then
        writeBackGuard
          (writeFrontGuard s.memory (alignedAddress - totalHeaderSize)
            s.currentOffset size)
          (alignedAddress + size) s.currentOffset
      else s.memory
    let s2 := SetCurrentOffset { s with memory := mem2 }
      totalSizeAfterAllocation
    .ok (s2, alignedAddress)

/-- `Allocate(size, alignment)` (`src/Source/StackAllocator/
StackAllocator.hpp` lines 224-231): records `startOffset` and `endOffset`
around `AllocateInternal<sizeof(InplaceHeader)>` and writes the in-place
header via `AllocateHeader` (lines 402-411, at `ptr - sizeof(Header)`). -/
def Allocate (p : StackAllocatorPolicy) (s : AllocatorState)
    (size alignment : Nat) :
    Except AllocatorError (AllocatorState × AllocResult) :=
  let startOffset := s.currentOffset
  match AllocateInternal p (sizeofInplaceHeader p) s size alignment with
  | .error e => .error e
  | .ok (s1, ptr) =>
    let endOffset := s1.currentOffset
    .ok ({ s1 with
           memory := writeInplaceHeader p s1.memory
             (ptr - sizeofInplaceHeader p) startOffset endOffset },
         ⟨ptr, startOffset, endOffset⟩)

/-- `DeallocateInternal(address, addressMarker, header)`
(`src/Source/StackAllocator/StackAllocator.hpp` lines 340-365).  Note the
bounds-check block: `backGuardAddress` is computed as `frontGuardAddress +
frontGuard->allocationSize` but is never used; the back guard pointer is
cast from `frontGuardAddress` itself (line 357), so the "back guard" that
is compared is a re-read of the front guard. -/
def DeallocateInternal (p : StackAllocatorPolicy) (s : AllocatorState)
    (address addressMarker : Nat) (header : StackHeader) :
    Except AllocatorError AllocatorState :=
  if p.stackCheck = true ∧ header.endOffset ≠ s.currentOffset then
    .error .outOfOrderDeallocation
  else if p.boundsCheck = true ∧
      ¬(readFrontGuardOffset s.memory
          (addressMarker - sizeofBoundGuardFront) = header.startOffset ∧
        readBackGuardOffset s.memory
          (addressMarker - sizeofBoundGuardFront) = header.startOffset) then
    .error .corruptionDetected
  else .ok (SetCurrentOffset s header.startOffset)

/-- `Deallocate(void* ptr)` (`src/Source/StackAllocator/StackAllocator.hpp`
lines 245-251). -/
def DeallocatePtr (p : StackAllocatorPolicy) (s : AllocatorState)
    (ptr : Nat) : Except AllocatorError AllocatorState :=
  match GetAddressFromPtr p s ptr with
  | .error e => .error e
  | .ok currentAddress =>
    let addressMarker := currentAddress - sizeofInplaceHeader p
    let header := readInplaceHeader p s.memory addressMarker
    DeallocateInternal p s currentAddress addressMarker header

/-- The index sequence of the destructor loop in `DestructArray`
(`src/Source/StackAllocator/StackAllocator.hpp` lines 413-420):
`for (Size i = objectCount - 1; i-- > 0;) ptr[i].~Object();`.
The loop enters with `i = objectCount - 1`; each test evaluates `i > 0`
and then decrements, so the body runs for `i = objectCount - 2, ..., 0`.
`destructLoop k` lists the body's indices when the loop starts at `i = k`.
(For `objectCount = 0` the unsigned initialiser wraps around; that case is
not modelled — every claim about this loop has `objectCount ≥ 1`.) -/
def destructLoop : Nat → List Nat
  | 0 => []
  | k + 1 => k :: destructLoop k

/-- The indices destructed by `DestructArray(ptr, objectCount)`. -/
def DestructArrayIndices (objectCount : Nat) : List Nat :=
  destructLoop (objectCount - 1)

end MemarenaV2

/-! ### Operations, requests and traces

Harness definitions used to state properties that quantify over call
sequences of the `Memarena` variant. -/

/-- Projection of a deallocation result onto the committed offset (states
contain a function-typed memory, so results are compared through this
projection). -/
def offsetResult (r : Except AllocatorError AllocatorState) :
    Except AllocatorError Nat :=
  r.map AllocatorState.currentOffset

/-- One public mutating call of the `Memarena` allocator. -/
inductive AllocatorOp where
  | allocate (size alignment : Nat)
  | newObject (size alignment : Nat)
  | newArray (objectCount objectSize alignment : Nat)
  | allocateArray (objectCount objectSize alignment : Nat)
  | deallocate (ptr : Nat)
  | deallocateHandle (ptr : Nat) (header : StackHeader)
  | deallocateArray (ptr objectSize : Nat)
  | deallocateArrayHandle (ptr : Nat) (header : StackArrayHeader)
      (objectSize : Nat)
  | reset

/-- Apply one call, discarding the returned pointer/handle/count. -/
def applyOp (p : StackAllocatorPolicy) (op : AllocatorOp)
    (s : AllocatorState) : Except AllocatorError AllocatorState :=
  match op with
  | .allocate size al => (Memarena.Allocate p s size al).map Prod.fst
  | .newObject size al => (Memarena.New p s size al).map Prod.fst
  | .newArray c os al => (Memarena.NewArray p s c os al).map Prod.fst
  | .allocateArray c os al => (Memarena.AllocateArray p s c os al).map Prod.fst
  | .deallocate ptr => Memarena.DeallocatePtr p s ptr
  | .deallocateHandle ptr h => Memarena.DeallocateHandle p s ptr h
  | .deallocateArray ptr os => (Memarena.DeallocateArrayPtr p s ptr os).map Prod.fst
  | .deallocateArrayHandle ptr h os =>
    (Memarena.DeallocateArrayHandle p s ptr h os).map Prod.fst
  | .reset => .ok (Reset s)

/-- An allocation request: which allocation entry point is called, with
which arguments. -/
inductive AllocReq where
  | raw (size alignment : Nat)
  | rawArr (objectCount objectSize alignment : Nat)
  | obj (size alignment : Nat)
  | arr (objectCount objectSize alignment : Nat)

/-- The request's alignment is positive (every C++ `alignof` is). -/
def ReqAligned : AllocReq → Prop
  | .raw _ al => 0 < al
  | .rawArr _ _ al => 0 < al
  | .obj _ al => 0 < al
  | .arr _ _ al => 0 < al

/-- The trace record of one allocation: the payload address and offsets as
returned (for the handle flavours these are exactly the fields the handle
carries; `endOffset` is additionally recorded for array allocations as a
trace observable — the C++ array handle itself stores only
`{startOffset, count}` and the deallocation recomputes the end). -/
inductive AllocRec where
  | raw (address startOffset endOffset : Nat)
  | rawArr (address startOffset objectCount objectSize endOffset : Nat)
  | obj (address startOffset endOffset : Nat)
  | arr (address startOffset objectCount objectSize endOffset : Nat)
deriving DecidableEq, Repr

/-- The start offset recorded for an allocation. -/
def recStart : AllocRec → Nat
  | .raw _ st _ => st
  | .rawArr _ st _ _ _ => st
  | .obj _ st _ => st
  | .arr _ st _ _ _ => st

/-- The payload address of an allocation. -/
def recAddress : AllocRec → Nat
  | .raw a _ _ => a
  | .rawArr a _ _ _ _ => a
  | .obj a _ _ => a
  | .arr a _ _ _ _ => a

/-- Perform one allocation request. -/
def allocStep (p : StackAllocatorPolicy) (s : AllocatorState) :
    AllocReq → Except AllocatorError (AllocatorState × AllocRec)
  | .raw size al =>
    match Memarena.Allocate p s size al with
    | .error e => .error e
    | .ok (s1, r) => .ok (s1, .raw r.address r.startOffset r.endOffset)
  | .rawArr c os al =>
    match Memarena.AllocateArray p s c os al with
    | .error e => .error e
    | .ok (s1, r) => .ok (s1, .rawArr r.address r.startOffset c os r.endOffset)
  | .obj size al =>
    match Memarena.New p s size al with
    | .error e => .error e
    | .ok (s1, h) =>
      .ok (s1, .obj h.address h.header.startOffset h.header.endOffset)
  | .arr c os al =>
    match Memarena.NewArray p s c os al with
    | .error e => .error e
    | .ok (s1, h) =>
      .ok (s1, .arr h.address h.header.startOffset c os s1.currentOffset)

/-- Deallocate one recorded allocation, through the matching deallocation
entry point: in-place-header allocations through the raw-pointer path
(which re-reads the header from memory), handle allocations through the
handle path. -/
def deallocStep (p : StackAllocatorPolicy) (s : AllocatorState) :
    AllocRec → Except AllocatorError AllocatorState
  | .raw a _ _ => Memarena.DeallocatePtr p s a
  | .rawArr a _ _ os _ =>
    match Memarena.DeallocateArrayPtr p s a os with
    | .error e => .error e
    | .ok (s1, _) => .ok s1
  | .obj a st en => Memarena.DeallocateHandle p s a ⟨st, en⟩
  | .arr a st c os _ =>
    match Memarena.DeallocateArrayHandle p s a ⟨st, c⟩ os with
    | .error e => .error e
    | .ok (s1, _) => .ok s1

/-- The part of an allocation record that is backed by arena memory: for
in-place-header allocations, the header re-read from the bytes preceding
the payload still yields the recorded start offset (and the header lies at
a sane address).  Handle-based allocations keep their metadata in the
handle, so nothing is required of memory. -/
def MemPart (p : StackAllocatorPolicy) (m : Memory) : AllocRec → Prop
  | .raw a st _ =>
    sizeofInplaceHeader p ≤ a ∧
    (readInplaceHeader p m (a - sizeofInplaceHeader p)).startOffset = st
  | .rawArr a st _ _ _ =>
    sizeofInplaceArrayHeader ≤ a ∧
    (readArrayHeader m (a - sizeofInplaceArrayHeader)).startOffset = st
  | .obj _ _ _ => True
  | .arr _ _ _ _ _ => True

/-- Run a list of allocation requests, collecting the trace records. -/
def runAllocs (p : StackAllocatorPolicy) :
    AllocatorState → List AllocReq →
    Except AllocatorError (AllocatorState × List AllocRec)
  | s, [] => .ok (s, [])
  | s, q :: qs =>
    match allocStep p s q with
    | .error e => .error e
    | .ok (s1, r) =>
      match runAllocs p s1 qs with
      | .error e => .error e
      | .ok (s2, rs) => .ok (s2, r :: rs)

/-- Deallocate a list of recorded allocations, in list order. -/
def runDeallocs (p : StackAllocatorPolicy) :
    AllocatorState → List AllocRec → Except AllocatorError AllocatorState
  | s, [] => .ok s
  | s, r :: rest =>
    match deallocStep p s r with
    | .error e => .error e
    | .ok s1 => runDeallocs p s1 rest

/-- A full LIFO round trip: perform all the allocations, then deallocate
all of them in exact reverse order. -/
def allocDealloc (p : StackAllocatorPolicy) (s : AllocatorState)
    (reqs : List AllocReq) : Except AllocatorError AllocatorState :=
  match runAllocs p s reqs with
  | .error e => .error e
  | .ok (s1, rs) => runDeallocs p s1 rs.reverse

/-- The observable part of an allocator state: current offset, reported
used size, start address and total size — everything except the buffer
contents. -/
def fullObs (s : AllocatorState) : Nat × Nat × Nat × Nat :=
  (s.currentOffset, s.usedSize, s.startAddress, s.totalSize)

/-- The observable part of an allocation run: per-allocation records plus
the final observable state. -/
def runObs (x : Except AllocatorError (AllocatorState × List AllocRec)) :
    Except AllocatorError ((Nat × Nat × Nat × Nat) × List AllocRec) :=
  x.map fun y => (fullObs y.1, y.2)

/-- The padding `Allocate(size, alignment)` computes in state `s` (room for
alignment, the in-place header and — under `BoundsCheck` — the front
guard). -/
def Memarena.allocatePadding (p : StackAllocatorPolicy) (s : AllocatorState)
    (alignment : Nat) : Nat :=
  CalculateAlignedPaddingWithHeader (s.startAddress + s.currentOffset)
    alignment (Memarena.GetTotalHeaderSize p (sizeofInplaceHeader p))

/-! ### Basic lemmas about the byte memory and the alignment math -/

theorem storeBytes_lt :
    ∀ (bs : List Nat) (m : Memory) (a x : Nat), x < a →
      storeBytes m a bs x = m x
  | [], _, _, _, _ => rfl
  | b :: bs, m, a, x, hx => by
    show storeBytes (fun y => if y = a then b else m y) (a + 1) bs x = m x
    rw [storeBytes_lt bs _ (a + 1) x (by omega)]
    simp only [if_neg (by omega : ¬x = a)]

theorem loadBytes_congr (m1 m2 : Memory) :
    ∀ (n a : Nat), (∀ x, a ≤ x → x < a + n → m1 x = m2 x) →
      loadBytes m1 a n = loadBytes m2 a n
  | 0, _, _ => rfl
  | n + 1, a, h => by
    show m1 a :: loadBytes m1 (a + 1) n = m2 a :: loadBytes m2 (a + 1) n
    rw [h a (by omega) (by omega),
      loadBytes_congr m1 m2 n (a + 1) (fun x h1 h2 => h x (by omega) (by omega))]

theorem loadBytes_storeBytes_of_le (m : Memory) (bs : List Nat)
    (a n w : Nat) (h : a + n ≤ w) :
    loadBytes (storeBytes m w bs) a n = loadBytes m a n :=
  loadBytes_congr _ _ n a fun x _ h2 => storeBytes_lt bs m w x (by omega)

theorem loadBytes_storeBytes_self :
    ∀ (bs : List Nat) (m : Memory) (a : Nat),
      loadBytes (storeBytes m a bs) a bs.length = bs
  | [], _, _ => rfl
  | b :: bs, m, a => by
    show storeBytes (fun y => if y = a then b else m y) (a + 1) bs a ::
        loadBytes (storeBytes (fun y => if y = a then b else m y) (a + 1) bs)
          (a + 1) bs.length = b :: bs
    rw [storeBytes_lt bs _ (a + 1) a (by omega), loadBytes_storeBytes_self bs]
    simp

theorem toLE_length : ∀ (w n : Nat), (toLE w n).length = w
  | 0, _ => rfl
  | 1, _ => rfl
  | w + 2, n => by
    show (toLE (w + 2) n).length = w + 2
    rw [toLE]
    simp [toLE_length (w + 1) (n / 256)]

theorem fromLE_toLE : ∀ (w n : Nat), 0 < w → fromLE (toLE w n) = n
  | 1, n, _ => by simp [toLE, fromLE]
  | w + 2, n, _ => by
    show fromLE (n % 256 :: toLE (w + 1) (n / 256)) = n
    rw [fromLE, fromLE_toLE (w + 1) (n / 256) (by omega)]
    omega

theorem load32_store32_self (m : Memory) (a v : Nat) :
    load32 (store32 m a v) a = v := by
  have h := loadBytes_storeBytes_self (toLE 4 v) m a
  rw [toLE_length] at h
  rw [load32, store32, h, fromLE_toLE 4 v (by omega)]

theorem load64_store64_self (m : Memory) (a v : Nat) :
    load64 (store64 m a v) a = v := by
  have h := loadBytes_storeBytes_self (toLE 8 v) m a
  rw [toLE_length] at h
  rw [load64, store64, h, fromLE_toLE 8 v (by omega)]

theorem load32_store32_of_le (m : Memory) (a w v : Nat) (h : a + 4 ≤ w) :
    load32 (store32 m w v) a = load32 m a := by
  rw [load32, store32, loadBytes_storeBytes_of_le m _ a 4 w h, load32]

theorem load32_store64_of_le (m : Memory) (a w v : Nat) (h : a + 4 ≤ w) :
    load32 (store64 m w v) a = load32 m a := by
  rw [load32, store64, loadBytes_storeBytes_of_le m _ a 4 w h, load32]

/-- `m1` and `m2` agree on all addresses below `b`. -/
def memAgreeBelow (b : Nat) (m1 m2 : Memory) : Prop :=
  ∀ x, x < b → m1 x = m2 x

theorem memAgreeBelow_refl (b : Nat) (m : Memory) : memAgreeBelow b m m :=
  fun _ _ => rfl

theorem memAgreeBelow_trans {b : Nat} {m1 m2 m3 : Memory}
    (h1 : memAgreeBelow b m1 m2) (h2 : memAgreeBelow b m2 m3) :
    memAgreeBelow b m1 m3 :=
  fun x hx => (h1 x hx).trans (h2 x hx)

theorem memAgreeBelow_mono {b c : Nat} {m1 m2 : Memory}
    (h : memAgreeBelow b m1 m2) (hcb : c ≤ b) : memAgreeBelow c m1 m2 :=
  fun x hx => h x (by omega)

theorem storeBytes_agreeBelow (m : Memory) (bs : List Nat) (a b : Nat)
    (h : b ≤ a) : memAgreeBelow b (storeBytes m a bs) m :=
  fun x hx => storeBytes_lt bs m a x (by omega)

theorem store32_agreeBelow (m : Memory) (a v b : Nat) (h : b ≤ a) :
    memAgreeBelow b (store32 m a v) m :=
  storeBytes_agreeBelow m _ a b h

theorem store64_agreeBelow (m : Memory) (a v b : Nat) (h : b ≤ a) :
    memAgreeBelow b (store64 m a v) m :=
  storeBytes_agreeBelow m _ a b h

theorem load32_of_agreeBelow {b : Nat} {m1 m2 : Memory}
    (h : memAgreeBelow b m1 m2) (a : Nat) (ha : a + 4 ≤ b) :
    load32 m1 a = load32 m2 a := by
  rw [load32, load32, loadBytes_congr m1 m2 4 a (fun x h1 h2 => h x (by omega))]

theorem readInplaceHeader_startOffset_write (p : StackAllocatorPolicy)
    (m : Memory) (a st en : Nat) :
    (readInplaceHeader p (writeInplaceHeader p m a st en) a).startOffset = st := by
  rw [readInplaceHeader, writeInplaceHeader]
  by_cases h : p.stackCheck
  · simp only [if_pos h]
    exact load32_store32_self _ _ _
  · simp only [if_neg h]
    exact load32_store32_self _ _ _

theorem readArrayHeader_startOffset_write (m : Memory) (a st c : Nat) :
    (readArrayHeader (writeArrayHeader m a st c) a).startOffset = st := by
  rw [readArrayHeader, writeArrayHeader]
  show load32 (store32 (store32 m a st) (a + 4) c) a = st
  rw [load32_store32_of_le _ a (a + 4) c (by omega), load32_store32_self]

theorem le_calculateAlignedAddress (b align : Nat) (h : 0 < align) :
    b ≤ CalculateAlignedAddress b align := by
  rw [CalculateAlignedAddress, Nat.mul_comm]
  have h1 := Nat.div_add_mod (b + align - 1) align
  have h2 : (b + align - 1) % align < align := Nat.mod_lt _ h
  generalize align * ((b + align - 1) / align) = t at h1 ⊢
  omega

theorem headerSize_le_padding (b align hs : Nat) (h : 0 < align) :
    hs ≤ CalculateAlignedPaddingWithHeader b align hs := by
  rw [CalculateAlignedPaddingWithHeader]
  have h1 := le_calculateAlignedAddress (b + hs) align h
  omega

theorem SetCurrentOffset_currentOffset (s : AllocatorState) (v : Nat) :
    (SetCurrentOffset s v).currentOffset = v := rfl

theorem SetCurrentOffset_usedSize (s : AllocatorState) (v : Nat) :
    (SetCurrentOffset s v).usedSize = v := rfl

theorem SetCurrentOffset_memory (s : AllocatorState) (v : Nat) :
    (SetCurrentOffset s v).memory = s.memory := rfl

/-! ### Inversion lemmas for the allocator operations -/

theorem le_GetTotalHeaderSize (p : StackAllocatorPolicy) (hsz : Nat) :
    hsz ≤ Memarena.GetTotalHeaderSize p hsz := by
  rw [Memarena.GetTotalHeaderSize]
  split_ifs <;> omega

theorem Memarena.AllocateInternal_ok_spec (p : StackAllocatorPolicy)
    (hsz : Nat) (s : AllocatorState) (size al : Nat)
    (s' : AllocatorState) (r : AllocResult) (hal : 0 < al)
    (h : Memarena.AllocateInternal p hsz s size al = .ok (s', r)) :
    r.startOffset = s.currentOffset ∧
    s'.startAddress = s.startAddress ∧
    s'.totalSize = s.totalSize ∧
    s'.usedSize = s'.currentOffset ∧
    s.currentOffset ≤ s'.currentOffset ∧
    r.endOffset = s'.currentOffset ∧
    s.startAddress + s.currentOffset + Memarena.GetTotalHeaderSize p hsz ≤
      r.address ∧
    r.address + size ≤ s.startAddress + s'.currentOffset ∧
    memAgreeBelow (s.startAddress + s.currentOffset) s'.memory s.memory := by
  have hcap := headerSize_le_padding (s.startAddress + s.currentOffset) al
    (Memarena.GetTotalHeaderSize p hsz) hal
  rw [Memarena.AllocateInternal] at h
  split_ifs at h
  all_goals
    first
    | exact Except.noConfusion h
    | (simp only [Except.ok.injEq, Prod.mk.injEq] at h
       obtain ⟨h1, h2⟩ := h
       subst h1
       subst h2
       refine ⟨rfl, rfl, rfl, rfl, ?_, rfl, ?_, ?_, ?_⟩ <;>
         simp only [SetCurrentOffset, writeBackGuard, writeFrontGuard] <;>
         first
           | omega
           | exact memAgreeBelow_refl _ _
           | (refine memAgreeBelow_trans (store32_agreeBelow _ _ _ _ ?_)
               (memAgreeBelow_trans (store64_agreeBelow _ _ _ _ ?_)
                 (store32_agreeBelow _ _ _ _ ?_)) <;> omega))

theorem writeInplaceHeader_agreeBelow (p : StackAllocatorPolicy)
    (m : Memory) (a st en b : Nat) (h : b ≤ a) :
    memAgreeBelow b (writeInplaceHeader p m a st en) m := by
  rw [writeInplaceHeader]
  split_ifs
  · exact memAgreeBelow_trans (store32_agreeBelow _ _ _ _ (by omega))
      (store32_agreeBelow _ _ _ _ (by omega))
  · exact store32_agreeBelow _ _ _ _ (by omega)

theorem writeArrayHeader_agreeBelow (m : Memory) (a st c b : Nat)
    (h : b ≤ a) : memAgreeBelow b (writeArrayHeader m a st c) m := by
  rw [writeArrayHeader]
  exact memAgreeBelow_trans (store32_agreeBelow _ _ _ _ (by omega))
    (store32_agreeBelow _ _ _ _ (by omega))

theorem Memarena.Allocate_ok_spec (p : StackAllocatorPolicy)
    (s : AllocatorState) (size al : Nat)
    (s' : AllocatorState) (r : AllocResult) (hal : 0 < al)
    (h : Memarena.Allocate p s size al = .ok (s', r)) :
    r.startOffset = s.currentOffset ∧
    s'.startAddress = s.startAddress ∧
    s'.totalSize = s.totalSize ∧
    s'.usedSize = s'.currentOffset ∧
    s.currentOffset ≤ s'.currentOffset ∧
    r.endOffset = s'.currentOffset ∧
    sizeofInplaceHeader p ≤ r.address ∧
    r.address ≤ s.startAddress + s'.currentOffset ∧
    (readInplaceHeader p s'.memory
      (r.address - sizeofInplaceHeader p)).startOffset = r.startOffset ∧
    memAgreeBelow (s.startAddress + s.currentOffset) s'.memory s.memory := by
  rw [Memarena.Allocate] at h
  cases hai : Memarena.AllocateInternal p (sizeofInplaceHeader p) s size al with
  | error e => rw [hai] at h; exact Except.noConfusion h
  | ok pr =>
    obtain ⟨s1, r1⟩ := pr
    rw [hai] at h
    simp only [Except.ok.injEq, Prod.mk.injEq] at h
    obtain ⟨h1, h2⟩ := h
    subst h1
    subst h2
    obtain ⟨ha1, ha2, ha3, ha4, ha5, ha6, ha7, ha8, ha9⟩ :=
      Memarena.AllocateInternal_ok_spec p (sizeofInplaceHeader p) s size al
        s1 r1 hal hai
    have hths := le_GetTotalHeaderSize p (sizeofInplaceHeader p)
    refine ⟨ha1, ha2, ha3, ha4, ha5, ha6, by omega, ?_, ?_, ?_⟩
    · show r1.address ≤ s.startAddress + s1.currentOffset
      omega
    · exact readInplaceHeader_startOffset_write p s1.memory _ _ _
    · exact memAgreeBelow_trans
        (writeInplaceHeader_agreeBelow p s1.memory _ _ _ _ (by omega)) ha9

theorem Memarena.AllocateArray_ok_spec (p : StackAllocatorPolicy)
    (s : AllocatorState) (c os al : Nat)
    (s' : AllocatorState) (r : AllocResult) (hal : 0 < al)
    (h : Memarena.AllocateArray p s c os al = .ok (s', r)) :
    r.startOffset = s.currentOffset ∧
    s'.startAddress = s.startAddress ∧
    s'.totalSize = s.totalSize ∧
    s'.usedSize = s'.currentOffset ∧
    s.currentOffset ≤ s'.currentOffset ∧
    r.endOffset = s'.currentOffset ∧
    sizeofInplaceArrayHeader ≤ r.address ∧
    r.address ≤ s.startAddress + s'.currentOffset ∧
    (readArrayHeader s'.memory
      (r.address - sizeofInplaceArrayHeader)).startOffset = r.startOffset ∧
    memAgreeBelow (s.startAddress + s.currentOffset) s'.memory s.memory := by
  rw [Memarena.AllocateArray] at h
  cases hai : Memarena.AllocateInternal p sizeofInplaceArrayHeader s (c * os) al with
  | error e => rw [hai] at h; exact Except.noConfusion h
  | ok pr =>
    obtain ⟨s1, r1⟩ := pr
    rw [hai] at h
    simp only [Except.ok.injEq, Prod.mk.injEq] at h
    obtain ⟨h1, h2⟩ := h
    subst h1
    subst h2
    obtain ⟨ha1, ha2, ha3, ha4, ha5, ha6, ha7, ha8, ha9⟩ :=
      Memarena.AllocateInternal_ok_spec p sizeofInplaceArrayHeader s (c * os)
        al s1 r1 hal hai
    have hths := le_GetTotalHeaderSize p sizeofInplaceArrayHeader
    refine ⟨ha1, ha2, ha3, ha4, ha5, ha6, by omega, ?_, ?_, ?_⟩
    · show r1.address ≤ s.startAddress + s1.currentOffset
      omega
    · exact readArrayHeader_startOffset_write s1.memory _ _ _
    · exact memAgreeBelow_trans
        (writeArrayHeader_agreeBelow s1.memory _ _ _ _ (by omega)) ha9

theorem GetAddressFromPtr_ok (p : StackAllocatorPolicy) (s : AllocatorState)
    (ptr x : Nat) (h : GetAddressFromPtr p s ptr = .ok x) : x = ptr := by
  rw [GetAddressFromPtr] at h
  split_ifs at h
  all_goals
    first
    | exact Except.noConfusion h
    | (simp only [Except.ok.injEq] at h; exact h.symm)

theorem Memarena.DeallocateInternal_ok (p : StackAllocatorPolicy)
    (s : AllocatorState) (a am : Nat) (hd : StackHeader)
    (s' : AllocatorState)
    (h : Memarena.DeallocateInternal p s a am hd = .ok s') :
    s' = SetCurrentOffset s hd.startOffset := by
  rw [Memarena.DeallocateInternal] at h
  split_ifs at h
  all_goals
    first
    | exact Except.noConfusion h
    | (simp only [Except.ok.injEq] at h; exact h.symm)

theorem Memarena.DeallocatePtr_ok (p : StackAllocatorPolicy)
    (s : AllocatorState) (ptr : Nat) (s' : AllocatorState)
    (h : Memarena.DeallocatePtr p s ptr = .ok s') :
    s' = SetCurrentOffset s
      (readInplaceHeader p s.memory (ptr - sizeofInplaceHeader p)).startOffset := by
  rw [Memarena.DeallocatePtr] at h
  cases hga : GetAddressFromPtr p s ptr with
  | error e => rw [hga] at h; exact Except.noConfusion h
  | ok x =>
    rw [hga] at h
    have hx := GetAddressFromPtr_ok p s ptr x hga
    subst hx
    exact Memarena.DeallocateInternal_ok p s _ _ _ s' h

theorem Memarena.DeallocateHandle_ok (p : StackAllocatorPolicy)
    (s : AllocatorState) (ptr : Nat) (hd : StackHeader) (s' : AllocatorState)
    (h : Memarena.DeallocateHandle p s ptr hd = .ok s') :
    s' = SetCurrentOffset s hd.startOffset := by
  rw [Memarena.DeallocateHandle] at h
  cases hga : GetAddressFromPtr p s ptr with
  | error e => rw [hga] at h; exact Except.noConfusion h
  | ok x => rw [hga] at h; exact Memarena.DeallocateInternal_ok p s _ _ _ s' h

theorem Memarena.DeallocateArrayPtr_ok (p : StackAllocatorPolicy)
    (s : AllocatorState) (ptr os : Nat) (s' : AllocatorState) (c : Nat)
    (h : Memarena.DeallocateArrayPtr p s ptr os = .ok (s', c)) :
    s' = SetCurrentOffset s
      (readArrayHeader s.memory (ptr - sizeofInplaceArrayHeader)).startOffset := by
  rw [Memarena.DeallocateArrayPtr] at h
  cases hga : GetAddressFromPtr p s ptr with
  | error e => rw [hga] at h; exact Except.noConfusion h
  | ok x =>
    rw [hga] at h
    have hx := GetAddressFromPtr_ok p s ptr x hga
    rw [hx] at h
    dsimp only at h
    cases hdi : Memarena.DeallocateInternal p s ptr
        (ptr - sizeofInplaceArrayHeader)
        ⟨(readArrayHeader s.memory (ptr - sizeofInplaceArrayHeader)).startOffset,
          GetArrayEndOffset ptr s.startAddress
            (readArrayHeader s.memory (ptr - sizeofInplaceArrayHeader)).count
            os⟩ with
    | error e => rw [hdi] at h; exact Except.noConfusion h
    | ok s1 =>
      rw [hdi] at h
      simp only [Except.ok.injEq, Prod.mk.injEq] at h
      obtain ⟨h1, _⟩ := h
      subst h1
      exact Memarena.DeallocateInternal_ok p s _ _ _ s1 hdi

theorem Memarena.DeallocateArrayHandle_ok (p : StackAllocatorPolicy)
    (s : AllocatorState) (ptr : Nat) (hd : StackArrayHeader) (os : Nat)
    (s' : AllocatorState) (c : Nat)
    (h : Memarena.DeallocateArrayHandle p s ptr hd os = .ok (s', c)) :
    s' = SetCurrentOffset s hd.startOffset := by
  rw [Memarena.DeallocateArrayHandle] at h
  cases hga : GetAddressFromPtr p s ptr with
  | error e => rw [hga] at h; exact Except.noConfusion h
  | ok x =>
    rw [hga] at h
    dsimp only at h
    cases hdi : Memarena.DeallocateInternal p s x x
        ⟨hd.startOffset, GetArrayEndOffset x s.startAddress hd.count os⟩ with
    | error e => rw [hdi] at h; exact Except.noConfusion h
    | ok s1 =>
      rw [hdi] at h
      simp only [Except.ok.injEq, Prod.mk.injEq] at h
      obtain ⟨h1, _⟩ := h
      subst h1
      exact Memarena.DeallocateInternal_ok p s _ _ _ s1 hdi

theorem Memarena.AllocateInternal_ok_used (p : StackAllocatorPolicy)
    (hsz : Nat) (s : AllocatorState) (size al : Nat)
    (s' : AllocatorState) (r : AllocResult)
    (h : Memarena.AllocateInternal p hsz s size al = .ok (s', r)) :
    s'.usedSize = s'.currentOffset := by
  rw [Memarena.AllocateInternal] at h
  split_ifs at h
  all_goals
    first
    | exact Except.noConfusion h
    | (simp only [Except.ok.injEq, Prod.mk.injEq] at h
       obtain ⟨h1, _⟩ := h
       subst h1
       rfl)

theorem map_fst_ok {α : Type} (x : Except AllocatorError (AllocatorState × α))
    (s' : AllocatorState) (h : x.map Prod.fst = .ok s') :
    ∃ a, x = .ok (s', a) := by
  cases x with
  | error e => exact Except.noConfusion h
  | ok pr =>
    obtain ⟨s1, a⟩ := pr
    simp only [Except.map, Except.ok.injEq] at h
    subst h
    exact ⟨a, rfl⟩

theorem Memarena.Allocate_ok_used (p : StackAllocatorPolicy)
    (s : AllocatorState) (size al : Nat) (s' : AllocatorState)
    (r : AllocResult) (h : Memarena.Allocate p s size al = .ok (s', r)) :
    s'.usedSize = s'.currentOffset := by
  rw [Memarena.Allocate] at h
  cases hai : Memarena.AllocateInternal p (sizeofInplaceHeader p) s size al with
  | error e => rw [hai] at h; exact Except.noConfusion h
  | ok pr =>
    obtain ⟨s1, r1⟩ := pr
    rw [hai] at h
    simp only [Except.ok.injEq, Prod.mk.injEq] at h
    obtain ⟨h1, _⟩ := h
    subst h1
    exact Memarena.AllocateInternal_ok_used p _ s size al s1 r1 hai

theorem Memarena.AllocateArray_ok_used (p : StackAllocatorPolicy)
    (s : AllocatorState) (c os al : Nat) (s' : AllocatorState)
    (r : AllocResult) (h : Memarena.AllocateArray p s c os al = .ok (s', r)) :
    s'.usedSize = s'.currentOffset := by
  rw [Memarena.AllocateArray] at h
  cases hai : Memarena.AllocateInternal p sizeofInplaceArrayHeader s (c * os) al with
  | error e => rw [hai] at h; exact Except.noConfusion h
  | ok pr =>
    obtain ⟨s1, r1⟩ := pr
    rw [hai] at h
    simp only [Except.ok.injEq, Prod.mk.injEq] at h
    obtain ⟨h1, _⟩ := h
    subst h1
    exact Memarena.AllocateInternal_ok_used p _ s (c * os) al s1 r1 hai

theorem Memarena.New_ok_used (p : StackAllocatorPolicy)
    (s : AllocatorState) (size al : Nat) (s' : AllocatorState)
    (hp : StackPtrHandle) (h : Memarena.New p s size al = .ok (s', hp)) :
    s'.usedSize = s'.currentOffset := by
  rw [Memarena.New] at h
  cases hai : Memarena.AllocateInternal p 0 s size al with
  | error e => rw [hai] at h; exact Except.noConfusion h
  | ok pr =>
    obtain ⟨s1, r1⟩ := pr
    rw [hai] at h
    simp only [Except.ok.injEq, Prod.mk.injEq] at h
    obtain ⟨h1, _⟩ := h
    subst h1
    exact Memarena.AllocateInternal_ok_used p 0 s size al s1 r1 hai

theorem Memarena.NewArray_ok_used (p : StackAllocatorPolicy)
    (s : AllocatorState) (c os al : Nat) (s' : AllocatorState)
    (hp : StackArrayPtrHandle)
    (h : Memarena.NewArray p s c os al = .ok (s', hp)) :
    s'.usedSize = s'.currentOffset := by
  rw [Memarena.NewArray] at h
  cases hai : Memarena.AllocateInternal p 0 s (c * os) al with
  | error e => rw [hai] at h; exact Except.noConfusion h
  | ok pr =>
    obtain ⟨s1, r1⟩ := pr
    rw [hai] at h
    simp only [Except.ok.injEq, Prod.mk.injEq] at h
    obtain ⟨h1, _⟩ := h
    subst h1
    exact Memarena.AllocateInternal_ok_used p 0 s (c * os) al s1 r1 hai

theorem MemPart_congr (p : StackAllocatorPolicy) {b : Nat} {m1 m2 : Memory}
    (hag : memAgreeBelow b m1 m2) (r : AllocRec) (hb : recAddress r ≤ b)
    (hm : MemPart p m2 r) : MemPart p m1 r := by
  cases r with
  | raw a st en =>
    obtain ⟨h1, h2⟩ := hm
    have hb' : a ≤ b := hb
    refine ⟨h1, ?_⟩
    rcases Bool.eq_false_or_eq_true p.stackCheck with hsc | hsc
    · have h8 : sizeofInplaceHeader p = 8 := by
        rw [sizeofInplaceHeader]; simp [hsc]
      rw [h8] at h1
      simp only [readInplaceHeader, hsc, if_true, ite_true, h8] at h2 ⊢
      rw [load32_of_agreeBelow hag _ (by omega)]
      exact h2
    · have h4 : sizeofInplaceHeader p = 4 := by
        rw [sizeofInplaceHeader]; simp [hsc]
      rw [h4] at h1
      simp only [readInplaceHeader, hsc, Bool.false_eq_true, if_false,
        ite_false, h4] at h2 ⊢
      rw [load32_of_agreeBelow hag _ (by omega)]
      exact h2
  | rawArr a st c os en =>
    obtain ⟨h1, h2⟩ := hm
    have hb' : a ≤ b := hb
    rw [sizeofInplaceArrayHeader] at h1
    refine ⟨h1, ?_⟩
    simp only [readArrayHeader, sizeofInplaceArrayHeader] at h2 ⊢
    rw [load32_of_agreeBelow hag _ (by omega)]
    exact h2
  | obj a st en => trivial
  | arr a st c os en => trivial

theorem allocStep_ok_spec (p : StackAllocatorPolicy) (s : AllocatorState)
    (q : AllocReq) (s1 : AllocatorState) (r : AllocRec)
    (hq : ReqAligned q) (h : allocStep p s q = .ok (s1, r)) :
    recStart r = s.currentOffset ∧
    s1.startAddress = s.startAddress ∧
    s.currentOffset ≤ s1.currentOffset ∧
    MemPart p s1.memory r ∧
    recAddress r ≤ s1.startAddress + s1.currentOffset ∧
    memAgreeBelow (s.startAddress + s.currentOffset) s1.memory s.memory := by
  cases q with
  | raw size al =>
    simp only [allocStep] at h
    cases ha : Memarena.Allocate p s size al with
    | error e => rw [ha] at h; exact Except.noConfusion h
    | ok pr =>
      obtain ⟨sa, ra⟩ := pr
      rw [ha] at h
      simp only [Except.ok.injEq, Prod.mk.injEq] at h
      obtain ⟨h1, h2⟩ := h
      subst h1
      subst h2
      obtain ⟨hb1, hb2, hb3, hb4, hb5, hb6, hb7, hb8, hb9, hb10⟩ :=
        Memarena.Allocate_ok_spec p s size al sa ra hq ha
      refine ⟨hb1, hb2, hb5, ⟨hb7, hb9⟩, ?_, hb10⟩
      show ra.address ≤ sa.startAddress + sa.currentOffset
      omega
  | rawArr c os al =>
    simp only [allocStep] at h
    cases ha : Memarena.AllocateArray p s c os al with
    | error e => rw [ha] at h; exact Except.noConfusion h
    | ok pr =>
      obtain ⟨sa, ra⟩ := pr
      rw [ha] at h
      simp only [Except.ok.injEq, Prod.mk.injEq] at h
      obtain ⟨h1, h2⟩ := h
      subst h1
      subst h2
      obtain ⟨hb1, hb2, hb3, hb4, hb5, hb6, hb7, hb8, hb9, hb10⟩ :=
        Memarena.AllocateArray_ok_spec p s c os al sa ra hq ha
      refine ⟨hb1, hb2, hb5, ⟨hb7, hb9⟩, ?_, hb10⟩
      show ra.address ≤ sa.startAddress + sa.currentOffset
      omega
  | obj size al =>
    simp only [allocStep] at h
    cases hn : Memarena.New p s size al with
    | error e => rw [hn] at h; exact Except.noConfusion h
    | ok pr =>
      obtain ⟨sa, hd⟩ := pr
      rw [hn] at h
      simp only [Except.ok.injEq, Prod.mk.injEq] at h
      obtain ⟨h1, h2⟩ := h
      subst h1
      subst h2
      rw [Memarena.New] at hn
      cases hai : Memarena.AllocateInternal p 0 s size al with
      | error e => rw [hai] at hn; exact Except.noConfusion hn
      | ok pr2 =>
        obtain ⟨sb, rb⟩ := pr2
        rw [hai] at hn
        simp only [Except.ok.injEq, Prod.mk.injEq] at hn
        obtain ⟨h3, h4⟩ := hn
        subst h3
        subst h4
        obtain ⟨hb1, hb2, hb3, hb4, hb5, hb6, hb7, hb8, hb9⟩ :=
          Memarena.AllocateInternal_ok_spec p 0 s size al sb rb hq hai
        refine ⟨hb1, hb2, hb5, trivial, ?_, hb9⟩
        show rb.address ≤ sb.startAddress + sb.currentOffset
        omega
  | arr c os al =>
    simp only [allocStep] at h
    cases hn : Memarena.NewArray p s c os al with
    | error e => rw [hn] at h; exact Except.noConfusion h
    | ok pr =>
      obtain ⟨sa, hd⟩ := pr
      rw [hn] at h
      simp only [Except.ok.injEq, Prod.mk.injEq] at h
      obtain ⟨h1, h2⟩ := h
      subst h1
      subst h2
      rw [Memarena.NewArray] at hn
      cases hai : Memarena.AllocateInternal p 0 s (c * os) al with
      | error e => rw [hai] at hn; exact Except.noConfusion hn
      | ok pr2 =>
        obtain ⟨sb, rb⟩ := pr2
        rw [hai] at hn
        simp only [Except.ok.injEq, Prod.mk.injEq] at hn
        obtain ⟨h3, h4⟩ := hn
        subst h3
        subst h4
        obtain ⟨hb1, hb2, hb3, hb4, hb5, hb6, hb7, hb8, hb9⟩ :=
          Memarena.AllocateInternal_ok_spec p 0 s (c * os) al sb rb hq hai
        refine ⟨hb1, hb2, hb5, trivial, ?_, hb9⟩
        show rb.address ≤ sb.startAddress + sb.currentOffset
        omega

theorem runAllocs_inv (p : StackAllocatorPolicy) (reqs : List AllocReq) :
    ∀ (s0 s : AllocatorState) (rs : List AllocRec),
    (∀ q ∈ reqs, ReqAligned q) → runAllocs p s0 reqs = .ok (s, rs) →
    s.startAddress = s0.startAddress ∧
    s0.currentOffset ≤ s.currentOffset ∧
    memAgreeBelow (s0.startAddress + s0.currentOffset) s.memory s0.memory ∧
    (∀ r ∈ rs, MemPart p s.memory r ∧
      recAddress r ≤ s.startAddress + s.currentOffset) ∧
    (∀ r0, rs.head? = some r0 → recStart r0 = s0.currentOffset) ∧
    (rs = [] → s = s0) := by
  induction reqs with
  | nil =>
    intro s0 s rs _ h
    simp only [runAllocs, Except.ok.injEq, Prod.mk.injEq] at h
    obtain ⟨h1, h2⟩ := h
    subst h1
    subst h2
    exact ⟨rfl, le_refl _, memAgreeBelow_refl _ _, by simp, by simp,
      fun _ => rfl⟩
  | cons q qs ih =>
    intro s0 s rs hWF h
    simp only [runAllocs] at h
    cases has : allocStep p s0 q with
    | error e => rw [has] at h; exact Except.noConfusion h
    | ok pr =>
      obtain ⟨s1, r⟩ := pr
      rw [has] at h
      dsimp only at h
      cases hrun : runAllocs p s1 qs with
      | error e => rw [hrun] at h; exact Except.noConfusion h
      | ok pr2 =>
        obtain ⟨s2, rs2⟩ := pr2
        rw [hrun] at h
        simp only [Except.ok.injEq, Prod.mk.injEq] at h
        obtain ⟨h1, h2⟩ := h
        subst h1
        subst h2
        obtain ⟨ha1, ha2, ha3, ha4, ha5, ha6⟩ :=
          allocStep_ok_spec p s0 q s1 r (hWF q (by simp)) has
        obtain ⟨hi1, hi2, hi3, hi4, hi5, hi6⟩ :=
          ih s1 s2 rs2 (fun x hx => hWF x (by simp [hx])) hrun
        have hagree01 : memAgreeBelow (s0.startAddress + s0.currentOffset)
            s2.memory s0.memory :=
          memAgreeBelow_trans
            (memAgreeBelow_mono hi3 (by omega)) ha6
        refine ⟨by omega, by omega, hagree01, ?_, ?_, by simp⟩
        · intro x hx
          rcases List.mem_cons.mp hx with hx1 | hx1
          · subst hx1
            exact ⟨MemPart_congr p hi3 x ha5 ha4, by omega⟩
          · exact hi4 x hx1
        · intro r0 hr0
          simp only [List.head?_cons, Option.some.injEq] at hr0
          subst hr0
          exact ha1

theorem deallocStep_ok (p : StackAllocatorPolicy) (s : AllocatorState)
    (r : AllocRec) (s' : AllocatorState) (h : deallocStep p s r = .ok s')
    (hm : MemPart p s.memory r) :
    s'.currentOffset = recStart r ∧ s'.memory = s.memory ∧
    s'.usedSize = s'.currentOffset := by
  cases r with
  | raw a st en =>
    have hd := Memarena.DeallocatePtr_ok p s a s' h
    subst hd
    exact ⟨hm.2, rfl, rfl⟩
  | rawArr a st c os en =>
    simp only [deallocStep] at h
    cases hda : Memarena.DeallocateArrayPtr p s a os with
    | error e => rw [hda] at h; exact Except.noConfusion h
    | ok pr =>
      obtain ⟨sa, ca⟩ := pr
      rw [hda] at h
      simp only [Except.ok.injEq] at h
      subst h
      have hd := Memarena.DeallocateArrayPtr_ok p s a os sa ca hda
      subst hd
      exact ⟨hm.2, rfl, rfl⟩
  | obj a st en =>
    have hd := Memarena.DeallocateHandle_ok p s a ⟨st, en⟩ s' h
    subst hd
    exact ⟨rfl, rfl, rfl⟩
  | arr a st c os en =>
    simp only [deallocStep] at h
    cases hda : Memarena.DeallocateArrayHandle p s a ⟨st, c⟩ os with
    | error e => rw [hda] at h; exact Except.noConfusion h
    | ok pr =>
      obtain ⟨sa, ca⟩ := pr
      rw [hda] at h
      simp only [Except.ok.injEq] at h
      subst h
      have hd := Memarena.DeallocateArrayHandle_ok p s a ⟨st, c⟩ os sa ca hda
      subst hd
      exact ⟨rfl, rfl, rfl⟩

theorem runDeallocs_last (p : StackAllocatorPolicy) (l : List AllocRec) :
    ∀ (r : AllocRec) (s sf : AllocatorState),
    (∀ x ∈ l ++ [r], MemPart p s.memory x) →
    runDeallocs p s (l ++ [r]) = .ok sf →
    sf.currentOffset = recStart r ∧ sf.usedSize = sf.currentOffset := by
  induction l with
  | nil =>
    intro r s sf hms h
    simp only [List.nil_append, runDeallocs] at h
    cases hd : deallocStep p s r with
    | error e => rw [hd] at h; exact Except.noConfusion h
    | ok s1 =>
      rw [hd] at h
      simp only [runDeallocs, Except.ok.injEq] at h
      subst h
      obtain ⟨hc, _, hu⟩ := deallocStep_ok p s r s1 hd (hms r (by simp))
      exact ⟨hc, hu⟩
  | cons a l ih =>
    intro r s sf hms h
    simp only [List.cons_append, runDeallocs] at h
    cases hd : deallocStep p s a with
    | error e => rw [hd] at h; exact Except.noConfusion h
    | ok s1 =>
      rw [hd] at h
      obtain ⟨_, hmem, _⟩ := deallocStep_ok p s a s1 hd (hms a (by simp))
      refine ih r s1 sf ?_ h
      intro x hx
      rw [hmem]
      exact hms x (by simp at hx ⊢; tauto)

theorem fullObs_update (x : AllocatorState) (m : Memory) :
    fullObs { x with memory := m } = fullObs x := rfl

theorem Memarena.AllocateInternal_congrObs (p : StackAllocatorPolicy)
    (hsz size al : Nat) (s t : AllocatorState)
    (h1 : s.currentOffset = t.currentOffset)
    (h3 : s.startAddress = t.startAddress) (h4 : s.totalSize = t.totalSize) :
    (Memarena.AllocateInternal p hsz s size al).map
        (fun x => (fullObs x.1, x.2)) =
    (Memarena.AllocateInternal p hsz t size al).map
        (fun x => (fullObs x.1, x.2)) := by
  rw [Memarena.AllocateInternal, Memarena.AllocateInternal, h1, h3, h4]
  split_ifs <;> simp [Except.map, fullObs, SetCurrentOffset]

theorem allocStep_congrObs (p : StackAllocatorPolicy) (q : AllocReq)
    (s t : AllocatorState) (h1 : s.currentOffset = t.currentOffset)
    (h3 : s.startAddress = t.startAddress) (h4 : s.totalSize = t.totalSize) :
    (allocStep p s q).map (fun x => (fullObs x.1, x.2)) =
    (allocStep p t q).map (fun x => (fullObs x.1, x.2)) := by
  cases q with
  | raw size al =>
    have hI := Memarena.AllocateInternal_congrObs p (sizeofInplaceHeader p)
      size al s t h1 h3 h4
    simp only [allocStep, Memarena.Allocate]
    cases hs : Memarena.AllocateInternal p (sizeofInplaceHeader p) s size al with
    | error e =>
      cases ht : Memarena.AllocateInternal p (sizeofInplaceHeader p) t size al with
      | error e2 =>
        rw [hs, ht] at hI
        simp only [Except.map, Except.error.injEq] at hI
        subst hI
        rfl
      | ok pr => rw [hs, ht] at hI; simp [Except.map] at hI
    | ok pr =>
      obtain ⟨s1, r1⟩ := pr
      cases ht : Memarena.AllocateInternal p (sizeofInplaceHeader p) t size al with
      | error e2 => rw [hs, ht] at hI; simp [Except.map] at hI
      | ok pr2 =>
        obtain ⟨s2, r2⟩ := pr2
        rw [hs, ht] at hI
        simp only [Except.map, Except.ok.injEq, Prod.mk.injEq] at hI
        obtain ⟨ho, hr⟩ := hI
        subst hr
        simp only [Except.map]
        have hof := ho
        simp only [fullObs, Prod.mk.injEq] at hof ⊢
        obtain ⟨e1, e2, e3, e4⟩ := hof
        simp [e1, e2, e3, e4]
  | rawArr c os al =>
    have hI := Memarena.AllocateInternal_congrObs p sizeofInplaceArrayHeader
      (c * os) al s t h1 h3 h4
    simp only [allocStep, Memarena.AllocateArray]
    cases hs : Memarena.AllocateInternal p sizeofInplaceArrayHeader s (c * os) al with
    | error e =>
      cases ht : Memarena.AllocateInternal p sizeofInplaceArrayHeader t (c * os) al with
      | error e2 =>
        rw [hs, ht] at hI
        simp only [Except.map, Except.error.injEq] at hI
        subst hI
        rfl
      | ok pr => rw [hs, ht] at hI; simp [Except.map] at hI
    | ok pr =>
      obtain ⟨s1, r1⟩ := pr
      cases ht : Memarena.AllocateInternal p sizeofInplaceArrayHeader t (c * os) al with
      | error e2 => rw [hs, ht] at hI; simp [Except.map] at hI
      | ok pr2 =>
        obtain ⟨s2, r2⟩ := pr2
        rw [hs, ht] at hI
        simp only [Except.map, Except.ok.injEq, Prod.mk.injEq] at hI
        obtain ⟨ho, hr⟩ := hI
        subst hr
        simp only [Except.map]
        have hof := ho
        simp only [fullObs, Prod.mk.injEq] at hof ⊢
        obtain ⟨e1, e2, e3, e4⟩ := hof
        simp [e1, e2, e3, e4]
  | obj size al =>
    have hI := Memarena.AllocateInternal_congrObs p 0 size al s t h1 h3 h4
    simp only [allocStep, Memarena.New]
    cases hs : Memarena.AllocateInternal p 0 s size al with
    | error e =>
      cases ht : Memarena.AllocateInternal p 0 t size al with
      | error e2 =>
        rw [hs, ht] at hI
        simp only [Except.map, Except.error.injEq] at hI
        subst hI
        rfl
      | ok pr => rw [hs, ht] at hI; simp [Except.map] at hI
    | ok pr =>
      obtain ⟨s1, r1⟩ := pr
      cases ht : Memarena.AllocateInternal p 0 t size al with
      | error e2 => rw [hs, ht] at hI; simp [Except.map] at hI
      | ok pr2 =>
        obtain ⟨s2, r2⟩ := pr2
        rw [hs, ht] at hI
        simp only [Except.map, Except.ok.injEq, Prod.mk.injEq] at hI
        obtain ⟨ho, hr⟩ := hI
        subst hr
        simp only [Except.map]
        rw [ho]
  | arr c os al =>
    have hI := Memarena.AllocateInternal_congrObs p 0 (c * os) al s t h1 h3 h4
    simp only [allocStep, Memarena.NewArray]
    cases hs : Memarena.AllocateInternal p 0 s (c * os) al with
    | error e =>
      cases ht : Memarena.AllocateInternal p 0 t (c * os) al with
      | error e2 =>
        rw [hs, ht] at hI
        simp only [Except.map, Except.error.injEq] at hI
        subst hI
        rfl
      | ok pr => rw [hs, ht] at hI; simp [Except.map] at hI
    | ok pr =>
      obtain ⟨s1, r1⟩ := pr
      cases ht : Memarena.AllocateInternal p 0 t (c * os) al with
      | error e2 => rw [hs, ht] at hI; simp [Except.map] at hI
      | ok pr2 =>
        obtain ⟨s2, r2⟩ := pr2
        rw [hs, ht] at hI
        simp only [Except.map, Except.ok.injEq, Prod.mk.injEq] at hI
        obtain ⟨ho, hr⟩ := hI
        subst hr
        simp only [Except.map]
        have hoc : s1.currentOffset = s2.currentOffset := by
          have h5 := congrArg Prod.fst ho
          simpa [fullObs] using h5
        rw [ho, hoc]

theorem runAllocs_congrObs (p : StackAllocatorPolicy) (reqs : List AllocReq) :
    ∀ (s t : AllocatorState), s.currentOffset = t.currentOffset →
    s.usedSize = t.usedSize → s.startAddress = t.startAddress →
    s.totalSize = t.totalSize →
    runObs (runAllocs p s reqs) = runObs (runAllocs p t reqs) := by
  induction reqs with
  | nil =>
    intro s t h1 h2 h3 h4
    simp only [runAllocs, runObs, Except.map]
    have hobs : fullObs s = fullObs t := by
      simp only [fullObs, h1, h2, h3, h4]
    rw [hobs]
  | cons q qs ih =>
    intro s t h1 h2 h3 h4
    have hS := allocStep_congrObs p q s t h1 h3 h4
    simp only [runAllocs]
    cases hs : allocStep p s q with
    | error e =>
      cases ht : allocStep p t q with
      | error e2 =>
        rw [hs, ht] at hS
        simp only [Except.map, Except.error.injEq] at hS
        subst hS
        rfl
      | ok pr => rw [hs, ht] at hS; simp [Except.map] at hS
    | ok pr =>
      obtain ⟨s1, r1⟩ := pr
      cases ht : allocStep p t q with
      | error e2 => rw [hs, ht] at hS; simp [Except.map] at hS
      | ok pr2 =>
        obtain ⟨s2, r2⟩ := pr2
        rw [hs, ht] at hS
        simp only [Except.map, Except.ok.injEq, Prod.mk.injEq] at hS
        obtain ⟨ho, hr⟩ := hS
        subst hr
        simp only [fullObs, Prod.mk.injEq] at ho
        obtain ⟨ho1, ho2, ho3, ho4⟩ := ho
        have hih := ih s1 s2 ho1 ho2 ho3 ho4
        dsimp only
        cases hr1 : runAllocs p s1 qs with
        | error e =>
          cases hr2 : runAllocs p s2 qs with
          | error e2 =>
            rw [hr1, hr2] at hih
            simp only [runObs, Except.map, Except.error.injEq] at hih
            subst hih
            rfl
          | ok pr3 => rw [hr1, hr2] at hih; simp [runObs, Except.map] at hih
        | ok pr3 =>
          obtain ⟨s3, rs3⟩ := pr3
          cases hr2 : runAllocs p s2 qs with
          | error e2 => rw [hr1, hr2] at hih; simp [runObs, Except.map] at hih
          | ok pr4 =>
            obtain ⟨s4, rs4⟩ := pr4
            rw [hr1, hr2] at hih
            simp only [runObs, Except.map, Except.ok.injEq, Prod.mk.injEq] at hih
            obtain ⟨hx, hy⟩ := hih
            subst hy
            simp only [runObs, Except.map]
            rw [hx]

/-! ### Claim theorems -/

/-- C1.  The claim says that under `StackCheck`, deallocating the
most-recently-made live allocation passes the stack-order check.  The code
violates this for arrays when `BoundsCheck` is also enabled (as it is in
the default policy): allocation commits `currentOffset = startOffset +
padding + size + sizeof(BoundGuardBack)`, but `DeallocateArray` recomputes
the end offset as `payloadOffset + count * objectSize`, which omits the
back guard, so the `endOffset == m_CurrentOffset` comparison fails and the
correctly ordered deallocation dies with `OutOfOrderDeallocation`.
Concretely: a fresh default-policy allocator (`totalSize = 100`,
`startAddress = 1024`), `NewArray` of one 4-byte element (alignment 4),
then `DeleteArray` of that same array via its handle. -/
theorem claim1_lifo_array_dealloc_under_boundscheck_fails :
    (match Memarena.NewArray .Default (freshState 100 1024) 1 4 4 with
      | .ok (s1, h) =>
        (Memarena.DeallocateArrayHandle .Default s1 h.address h.header 4).map
          (fun x => AllocatorState.currentOffset (Prod.fst x))
      | .error e => .error e) =
      .error .outOfOrderDeallocation := by
  rfl

/-- C2.  The destructor loop of `DestructArray` in
`src/Source/StackAllocator/StackAllocator.hpp` runs for indices
`objectCount - 2, ..., 0`: for an array of 5 elements it destructs only 4
elements (indices 3, 2, 1, 0), skipping the last element, where the claim
(and spec section 8) demand exactly 5 destructor calls for indices
4 down to 0. -/
theorem claim2_destructArray_skips_last_element :
    MemarenaV2.DestructArrayIndices 5 = [3, 2, 1, 0] ∧
      (MemarenaV2.DestructArrayIndices 5).length = 4 := by
  constructor <;> rfl

/-- C4.  In `src/Source/StackAllocator/StackAllocator.hpp` the
deallocation-time "back guard" is re-read from `frontGuardAddress` (the
computed `backGuardAddress` is never used), so corrupting the bytes
immediately past an allocation's declared size is NOT detected.
Concretely: default policy, fresh allocator (`totalSize = 100`,
`startAddress = 1024`), `Allocate(4, 4)`, then the first byte past the
4-byte payload (the back guard's low byte, originally 0) is overwritten
with 99, and the deallocation still succeeds, rolling the offset back to
0, where the claim demands `CorruptionDetected`. -/
theorem claim4_back_guard_corruption_undetected :
    (match MemarenaV2.Allocate .Default (freshState 100 1024) 4 4 with
      | .ok (s1, r) =>
        (offsetResult
            (MemarenaV2.DeallocatePtr .Default
              { s1 with
                memory := fun x =>
                  if x = r.address + 4 then 99 else s1.memory x }
              r.address),
          load32
            (fun x => if x = r.address + 4 then 99 else s1.memory x)
            (r.address + 4))
      | .error _ => (.error .outOfMemory, 0)) = (.ok 0, 99) := by
  rfl

/-- C5.  The claim says `0 ≤ currentOffset ≤ totalSize` holds in every
reachable state under every policy configuration including `BoundsCheck`.
It does not: the size check compares `currentOffset + padding + size`
against `totalSize` BEFORE `sizeof(BoundGuardBack)` is added, so with all
checks enabled an allocation can commit `currentOffset = totalSize +
sizeof(BoundGuardBack)` (and the back guard itself is written past the end
of the arena).  Concretely: fresh default-policy allocator with
`totalSize = 20`, `startAddress = 1024`; the `New` path with `size = 4`,
`alignment = 4` computes padding 16 (front guard), passes the size check
with exactly 20, and commits offset 24 > 20. -/
theorem claim5_boundscheck_overflows_totalSize :
    (Memarena.AllocateInternal .Default 0 (freshState 20 1024) 4 4).map
        (fun x => AllocatorState.currentOffset (Prod.fst x)) = .ok 24 ∧
      (freshState 20 1024).totalSize = 20 := by
  constructor <;> rfl

/-- C6, counterexample.  The claim says the one-past-the-end address
`startAddress + totalSize` fails the ownership check.  It does not:
`OwnsAddress` uses `address <= m_EndAddress`, so with `startAddress =
1024` and `totalSize = 100` the address 1124 is accepted by
`GetAddressFromPtr` under the default policy (ownership check enabled)
instead of failing with `NotOwnedPointer`. -/
theorem claim6_counterexample_one_past_end_accepted :
    GetAddressFromPtr .Default (freshState 100 1024) 1124 = .ok 1124 ∧
      1124 = (freshState 100 1024).startAddress +
        (freshState 100 1024).totalSize := by
  constructor <;> rfl

/-- C6, amended.  Under `OwnershipCheck`, a non-null pointer is rejected
with `NotOwnedPointer` exactly when its address lies outside the CLOSED
range `[startAddress, startAddress + totalSize]`; every address inside
that closed range — including the one-past-the-end address — passes the
check. -/
theorem claim6_ownership_closed_range (p : StackAllocatorPolicy)
    (s : AllocatorState) (a : Nat) (hown : p.ownershipCheck = true)
    (ha : a ≠ 0) :
    (GetAddressFromPtr p s a = .error .notOwnedPointer ↔
      ¬(s.startAddress ≤ a ∧ a ≤ s.startAddress + s.totalSize)) ∧
    (GetAddressFromPtr p s a = .ok a ↔
      s.startAddress ≤ a ∧ a ≤ s.startAddress + s.totalSize) := by
  rw [GetAddressFromPtr]
  rw [if_neg (by simp [ha])]
  by_cases h : OwnsAddress s a
  · rw [if_neg (by simp [h])]
    simp [OwnsAddress] at h
    simp [h]
  · rw [if_pos ⟨hown, h⟩]
    simp [OwnsAddress] at h
    constructor
    · simp
      omega
    · constructor
      · intro hc
        cases hc
      · intro hc
        omega

/-- C6, witness for the amended theorem. -/
theorem claim6_ownership_closed_range_witness :
    (GetAddressFromPtr .Default (freshState 100 1024) 1200 =
        .error .notOwnedPointer ↔
      ¬((freshState 100 1024).startAddress ≤ 1200 ∧
        1200 ≤ (freshState 100 1024).startAddress +
          (freshState 100 1024).totalSize)) ∧
    (GetAddressFromPtr .Default (freshState 100 1024) 1200 = .ok 1200 ↔
      (freshState 100 1024).startAddress ≤ 1200 ∧
        1200 ≤ (freshState 100 1024).startAddress +
          (freshState 100 1024).totalSize) :=
  claim6_ownership_closed_range .Default (freshState 100 1024) 1200 rfl
    (by omega)

/-- C10.  After every operation that changes the allocator's position and
succeeds, the reported used size equals `m_CurrentOffset`: every successful
mutating call commits through `SetCurrentOffset`, which writes
`m_CurrentOffset` and `SetUsedSize` together. -/
theorem claim10_usedSize_eq_currentOffset (p : StackAllocatorPolicy)
    (op : AllocatorOp) (s s' : AllocatorState)
    (h : applyOp p op s = .ok s') : GetUsedSize s' = s'.currentOffset := by
  cases op with
  | allocate size al =>
    obtain ⟨r, hr⟩ := map_fst_ok _ s' h
    exact Memarena.Allocate_ok_used p s size al s' r hr
  | newObject size al =>
    obtain ⟨r, hr⟩ := map_fst_ok _ s' h
    exact Memarena.New_ok_used p s size al s' r hr
  | newArray c os al =>
    obtain ⟨r, hr⟩ := map_fst_ok _ s' h
    exact Memarena.NewArray_ok_used p s c os al s' r hr
  | allocateArray c os al =>
    obtain ⟨r, hr⟩ := map_fst_ok _ s' h
    exact Memarena.AllocateArray_ok_used p s c os al s' r hr
  | deallocate ptr =>
    rw [Memarena.DeallocatePtr_ok p s ptr s' h]
    rfl
  | deallocateHandle ptr hd =>
    rw [Memarena.DeallocateHandle_ok p s ptr hd s' h]
    rfl
  | deallocateArray ptr os =>
    obtain ⟨c, hc⟩ := map_fst_ok _ s' h
    rw [Memarena.DeallocateArrayPtr_ok p s ptr os s' c hc]
    rfl
  | deallocateArrayHandle ptr hd os =>
    obtain ⟨c, hc⟩ := map_fst_ok _ s' h
    rw [Memarena.DeallocateArrayHandle_ok p s ptr hd os s' c hc]
    rfl
  | reset =>
    simp only [applyOp, Except.ok.injEq] at h
    subst h
    rfl

/-- C10, witness. -/
theorem claim10_usedSize_eq_currentOffset_witness :
    applyOp .Default .reset (freshState 10 1024) =
        .ok (Reset (freshState 10 1024)) ∧
      GetUsedSize (Reset (freshState 10 1024)) =
        (Reset (freshState 10 1024)).currentOffset :=
  ⟨rfl, claim10_usedSize_eq_currentOffset .Default .reset (freshState 10 1024)
    (Reset (freshState 10 1024)) rfl⟩

/-- C3.  Under `SizeCheck`, `Allocate(size, alignment)` fails with
`OutOfMemory` exactly when `currentOffset + padding + size > totalSize`
(padding as the code computes it for this alignment and the in-place
header — under `BoundsCheck` it also reserves the front guard); a failing
assert aborts before any state is written, so `currentOffset` is left as
it was.  When the inequality does not hold the allocation commits and
`currentOffset` strictly advances, to
`currentOffset + padding + size` plus `sizeof(BoundGuardBack)` under
`BoundsCheck`. -/
theorem claim3_sizecheck_outOfMemory_iff (p : StackAllocatorPolicy)
    (s : AllocatorState) (size al : Nat) (hp : p.sizeCheck = true)
    (hal : 0 < al) :
    (s.totalSize < s.currentOffset + Memarena.allocatePadding p s al + size →
      Memarena.Allocate p s size al = .error .outOfMemory) ∧
    (s.currentOffset + Memarena.allocatePadding p s al + size ≤ s.totalSize →
      ∃ s' r, Memarena.Allocate p s size al = .ok (s', r) ∧
        s.currentOffset < s'.currentOffset ∧
        s'.currentOffset = s.currentOffset + Memarena.allocatePadding p s al +
          size +
          (if p.boundsCheck then sizeofBoundGuardBack else 0)) := by
  have hths : 0 < Memarena.GetTotalHeaderSize p (sizeofInplaceHeader p) := by
    rw [Memarena.GetTotalHeaderSize, sizeofInplaceHeader]
    split_ifs <;> decide
  have hcap := headerSize_le_padding (s.startAddress + s.currentOffset) al
    (Memarena.GetTotalHeaderSize p (sizeofInplaceHeader p)) hal
  constructor
  · intro hover
    rw [Memarena.Allocate, Memarena.AllocateInternal]
    rw [if_pos hths]
    rw [if_pos ⟨hp, hover⟩]
  · intro hfits
    rw [Memarena.Allocate, Memarena.AllocateInternal]
    rw [if_pos hths]
    rw [if_neg (by rw [Memarena.allocatePadding] at hfits; omega)]
    rcases Bool.eq_false_or_eq_true p.boundsCheck with hbc | hbc <;>
      simp only [hbc, Bool.false_eq_true, if_true, if_false, ite_true,
        ite_false] <;>
      refine ⟨_, _, rfl, ?_, ?_⟩ <;>
      simp only [SetCurrentOffset, Memarena.allocatePadding] <;>
      rw [Memarena.allocatePadding] at hfits <;>
      omega

/-- C3, witness: default policy, fresh 100-byte allocator at address 1024,
`Allocate(4, 4)`. -/
theorem claim3_sizecheck_outOfMemory_iff_witness :
    ((freshState 100 1024).totalSize <
        (freshState 100 1024).currentOffset +
          Memarena.allocatePadding .Default (freshState 100 1024) 4 + 4 →
      Memarena.Allocate .Default (freshState 100 1024) 4 4 =
        .error .outOfMemory) ∧
    ((freshState 100 1024).currentOffset +
        Memarena.allocatePadding .Default (freshState 100 1024) 4 + 4 ≤
          (freshState 100 1024).totalSize →
      ∃ s' r, Memarena.Allocate .Default (freshState 100 1024) 4 4 =
          .ok (s', r) ∧
        (freshState 100 1024).currentOffset < s'.currentOffset ∧
        s'.currentOffset = (freshState 100 1024).currentOffset +
          Memarena.allocatePadding .Default (freshState 100 1024) 4 + 4 +
          (if StackAllocatorPolicy.Default.boundsCheck then
            sizeofBoundGuardBack else 0)) :=
  claim3_sizecheck_outOfMemory_iff .Default (freshState 100 1024) 4 4 rfl
    (by omega)

/-- C7.  For every sequence of allocations (any mix of `Allocate`, `New`,
`NewArray`, `AllocateArray`, each with a positive alignment) followed by
deallocations of all of them through the matching deallocation entry
points in exact reverse (LIFO) order, if every enabled check passes (the
run returns without an assert firing), `GetUsedSize()` is 0 after the
final deallocation: each deallocation rolls `currentOffset` back to the
`startOffset` recorded when its allocation was made, and the first
allocation's `startOffset` on a fresh allocator is 0. -/
theorem claim7_lifo_full_unwind (p : StackAllocatorPolicy)
    (reqs : List AllocReq) (totalSize startAddress : Nat)
    (sf : AllocatorState) (hWF : ∀ q ∈ reqs, ReqAligned q)
    (h : allocDealloc p (freshState totalSize startAddress) reqs = .ok sf) :
    GetUsedSize sf = 0 := by
  rw [allocDealloc] at h
  cases hra : runAllocs p (freshState totalSize startAddress) reqs with
  | error e => rw [hra] at h; exact Except.noConfusion h
  | ok pr =>
    obtain ⟨s, rs⟩ := pr
    rw [hra] at h
    dsimp only at h
    obtain ⟨hstart, hcur, hagree, hmem, hhead, hnil⟩ :=
      runAllocs_inv p reqs _ s rs hWF hra
    cases rs with
    | nil =>
      simp only [List.reverse_nil, runDeallocs, Except.ok.injEq] at h
      subst h
      rw [hnil rfl]
      rfl
    | cons r0 rs2 =>
      rw [List.reverse_cons] at h
      have hparts : ∀ x ∈ rs2.reverse ++ [r0], MemPart p s.memory x := by
        intro x hx
        rcases List.mem_append.mp hx with h1 | h1
        · exact (hmem x (List.mem_cons_of_mem _ (List.mem_reverse.mp h1))).1
        · have hx0 : x = r0 := by simpa using h1
          subst hx0
          exact (hmem x (List.mem_cons_self _ _)).1
      obtain ⟨hc, hu⟩ := runDeallocs_last p rs2.reverse r0 s sf hparts h
      have hr0 := hhead r0 rfl
      rw [GetUsedSize, hu, hc, hr0]
      rfl

set_option maxHeartbeats 2000000 in
/-- C7, witness: two allocations (a raw `Allocate(4, 4)` and a
`New`-style object of 4 bytes) on a fresh default-policy allocator,
deallocated in reverse order. -/
theorem claim7_lifo_full_unwind_witness :
    (allocDealloc .Default (freshState 100 1024) [.raw 4 4, .obj 4 4]).map
      GetUsedSize = .ok 0 := by
  have hex : ∃ sf, allocDealloc .Default (freshState 100 1024)
      [.raw 4 4, .obj 4 4] = .ok sf := ⟨_, rfl⟩
  obtain ⟨sf, hsf⟩ := hex
  rw [hsf, Except.map]
  rw [claim7_lifo_full_unwind .Default [.raw 4 4, .obj 4 4] 100 1024 sf
    (by intro q hq; fin_cases hq <;> exact Nat.zero_lt_succ _) hsf]

/-- C8.  `Reset()` sets `currentOffset` to 0, and replaying any fixed
sequence of allocation calls after `Reset()` produces the same per-call
records (payload addresses, start/end offsets) and the same final
`currentOffset`/used size as running the same sequence on a freshly
constructed allocator of the same `totalSize` and the same start address
(allocation outcomes depend only on `currentOffset`, the start address,
the total size and the call arguments — never on the buffer contents). -/
theorem claim8_reset_replay (p : StackAllocatorPolicy) (s : AllocatorState)
    (reqs : List AllocReq) :
    (Reset s).currentOffset = 0 ∧
    runObs (runAllocs p (Reset s) reqs) =
      runObs (runAllocs p (freshState s.totalSize s.startAddress) reqs) :=
  ⟨rfl, runAllocs_congrObs p reqs (Reset s)
    (freshState s.totalSize s.startAddress) rfl rfl rfl rfl⟩

/-- C9, amended.  When `BoundsCheck` is disabled, deallocating through a
handle whose fields are exactly the in-place header stored before the
pointer is indistinguishable from deallocating through the raw pointer:
both run the same null, ownership and stack-order checks and the same
rollback.  (Under `BoundsCheck` the two paths probe the front guard at
different addresses and can disagree — see the counterexample.) -/
theorem claim9_paths_agree_without_boundscheck (p : StackAllocatorPolicy)
    (s : AllocatorState) (ptr : Nat) (hbc : p.boundsCheck = false) :
    Memarena.DeallocateHandle p s ptr
      (readInplaceHeader p s.memory (ptr - sizeofInplaceHeader p)) =
    Memarena.DeallocatePtr p s ptr := by
  rw [Memarena.DeallocateHandle, Memarena.DeallocatePtr]
  cases hga : GetAddressFromPtr p s ptr with
  | error e => rfl
  | ok x =>
    have hx := GetAddressFromPtr_ok p s ptr x hga
    subst hx
    dsimp only
    rw [Memarena.DeallocateInternal, Memarena.DeallocateInternal]
    simp [hbc]

/-- C9, witness for the amended theorem: a policy with every check except
`BoundsCheck`. -/
theorem claim9_paths_agree_without_boundscheck_witness :
    Memarena.DeallocateHandle ⟨true, false, true, true, true⟩
      (freshState 10 1024) 5
      (readInplaceHeader ⟨true, false, true, true, true⟩
        (freshState 10 1024).memory
        (5 - sizeofInplaceHeader ⟨true, false, true, true, true⟩)) =
    Memarena.DeallocatePtr ⟨true, false, true, true, true⟩
      (freshState 10 1024) 5 :=
  claim9_paths_agree_without_boundscheck ⟨true, false, true, true, true⟩
    (freshState 10 1024) 5 rfl

/-- C9, counterexample.  The claim says the raw-pointer and the handle
deallocation paths accept and reject in exactly the same states.  Under
`BoundsCheck` they do not: the pointer path probes the front guard at
`headerAddress - sizeof(BoundGuardFront)` while the handle path probes it
at `payloadAddress - sizeof(BoundGuardFront)` — an address inside the real
front guard.  Concretely: default policy, fresh allocator (`totalSize =
100`, `startAddress = 1024`), `Allocate(4, 4)`; deallocating by pointer
succeeds (offset rolled back to 0) while deallocating the very same
allocation through a handle carrying its `{startOffset, endOffset}` dies
with `CorruptionDetected`. -/
theorem claim9_counterexample_paths_diverge_under_boundscheck :
    (match Memarena.Allocate .Default (freshState 100 1024) 4 4 with
      | .ok (s1, r) =>
        (offsetResult (Memarena.DeallocatePtr .Default s1 r.address),
          offsetResult
            (Memarena.DeallocateHandle .Default s1 r.address
              ⟨r.startOffset, r.endOffset⟩))
      | .error _ => (.error .outOfMemory, .error .outOfMemory)) =
      (.ok 0, .error .corruptionDetected) := by
  rfl

end MemoryManager
